import Mathlib

/-!
A verification development for the libfork fork-join runtime core.

Each definition is a shallow embedding of a function or protocol step of the
C++ source (file and symbol named in the doc comment).  Machine integers are
modelled as `Nat` with explicit reduction modulo `2 ^ 16` where the source
relies on `uint16` wraparound.  Fallible operations return `Option`.
-/

namespace Libfork

/-- the sentinel `k_u16_max = std::numeric_limits of uint16` (65535), used to
encode an idle join counter. -/
def kU16Max : Nat := 65535

/-- the modulus of the 16-bit atomic counters. -/
def u16Mod : Nat := 65536

/-- model of `lf::impl::frame` restricted to the two counters the join
protocol manipulates: `m_steal` (steal counter) and `m_join` (atomic join
counter, initialised to `k_u16_max`). -/
structure Frame where
  /-- the `m_steal` counter: number of times this frame was stolen. -/
  steals : Nat
  /-- the `m_join` atomic counter; semantically `k_u16_max - num_joined`. -/
  joins : Nat
deriving DecidableEq, Repr

/-- model of `frame::fetch_sub_joins(v, order)`: a 16-bit `fetch_sub` on the
join counter; returns the value held before subtraction and stores the
wrapped difference. -/
def Frame.fetchSubJoins (f : Frame) (v : Nat) : Nat × Frame :=
  (f.joins, { f with joins := (f.joins + u16Mod - v % u16Mod) % u16Mod })

/-- model of `frame::reset()`: `m_steal := 0` and the join counter is stored
back to `k_u16_max` (legal because the caller has exclusive ownership). -/
def Frame.reset (_ : Frame) : Frame :=
  { steals := 0, joins := kU16Max }

/-- outcome of `join_awaitable::await_suspend` (awaitables.hpp): either the
suspended coroutine is handed straight back (the worker won the join race and
resumes the parent, with the frame shown after `take_stack_reset_frame`), or
the worker abandons the parent and returns a handle from the scheduler side
(possibly a self-steal); the recorded frame is the join counter state the
losing worker left behind. -/
inductive JoinOutcome where
  /-- the worker wins the race: acquire fence, reclaim the stacklet of the
  parent, reset the control block, resume the task. -/
  | resume (f : Frame)
  /-- someone else is responsible for the task; yield to the scheduler. -/
  | scheduler (f : Frame)
deriving DecidableEq, Repr

/-- model of `join_awaitable::await_suspend` (awaitables.hpp lines 452-483):
read `steals`, `fetch_sub(k_u16_max - steals)` on the join counter with
release ordering, and compare the number of steals against the number of
children that had joined before the subtraction. -/
def joinAwaitSuspend (f : Frame) : JoinOutcome :=
  let steals := f.steals
  let (joined, f') := f.fetchSubJoins (kU16Max - steals)
  if steals = kU16Max - joined then
    .resume f'.reset
  else
    .scheduler f'

/-- effect of `detail::final_await_suspend` on the stack owned by the
executing worker. -/
inductive StackEffect where
  /-- the thread-local stack is left untouched. -/
  | unchanged
  /-- `*tls_stack = stack{addr}`: a stack is installed from the given
  stacklet address. -/
  | installFrom (addr : Nat)
  /-- `tls_stack->release()`: the worker gives up the chain it owned and
  installs a fresh initial stacklet. -/
  | released
deriving DecidableEq, Repr

/-- where `detail::final_await_suspend` transfers control. -/
inductive FinalTransfer where
  /-- symmetric transfer to the parent coroutine. -/
  | parent
  /-- `std::noop_coroutine()`: return to the scheduler event loop. -/
  | scheduler
deriving DecidableEq, Repr

/-- model of `detail::final_await_suspend(parent)` (promise.hpp): `popHit` is
whether `context->pop()` returned the continuation of the parent; `pf` is the
parent frame; `pStacklet` and `cStacklet` are the addresses of the stacklet
of the parent and of the just-finished child.  Returns where control goes,
what happens to the thread-local stack, and the resulting parent frame. -/
def finalAwaitSuspend (popHit : Bool) (pf : Frame) (pStacklet cStacklet : Nat) :
    FinalTransfer × StackEffect × Frame :=
  if popHit then
    -- no-one stole the continuation: keep ripping, no counter update.
    (.parent, .unchanged, pf)
  else
    let (old, pf') := pf.fetchSubJoins 1
    if old = 1 then
      -- last child to complete and the parent issued a join: win the race.
      if pStacklet ≠ cStacklet then
        (.parent, .installFrom pStacklet, pf'.reset)
      else
        (.parent, .unchanged, pf'.reset)
    else
      if pStacklet = cStacklet then
        (.scheduler, .released, pf')
      else
        (.scheduler, .unchanged, pf')

/-- model of the Chase-Lev `deque<task_handle>` as seen by its owning
worker: the elements in order plus the capacity of the current ring buffer.
`push` resizes (doubling, via an allocation that may fail) when full. -/
structure Deque where
  /-- the elements currently in the deque, bottom last. -/
  items : List Nat
  /-- the capacity of the current `atomic_ring_buf`. -/
  cap : Nat
deriving DecidableEq, Repr

/-- model of `deque::push(val)`: if the buffer is full, `resize` allocates a
buffer of twice the capacity (the old one is retired to the garbage list);
`allocOk` tells whether that allocation succeeds.  On allocation failure the
`bad_alloc` propagates before any element is written, leaving the deque
unchanged (modelled by `none`). -/
def Deque.push (d : Deque) (x : Nat) (allocOk : Bool) : Option Deque :=
  if d.cap < d.items.length + 1 then
    if allocOk then
      some { items := d.items ++ [x], cap := 2 * d.cap }
    else
      none
  else
    some { items := d.items ++ [x], cap := d.cap }

/-- state of a worker around a fork suspension point: its deque, whether the
child frame is still alive, which task is (or is about to be) running, and
whether an exception is propagating in the parent. -/
structure ForkState where
  /-- the work-stealing deque of the worker. -/
  deque : Deque
  /-- whether the frame of the child coroutine is alive. -/
  childAlive : Bool
  /-- whether the child body ever began executing. -/
  childStarted : Bool
  /-- the task about to run on this worker. -/
  running : Nat
  /-- whether an exception is being re-raised inside the parent. -/
  excInParent : Bool
deriving DecidableEq, Repr

/-- model of `fork_awaitable::await_suspend` (awaitables.hpp lines 237-255)
together with the surrounding symmetric-transfer machinery: ownership of the
child is taken (`std::exchange(child, nullptr)` into a `unique_frame`), the
parent handle is pushed onto the deque of the worker, and control transfers
to the child.  If the push throws, the exception is caught, the owning
`unique_frame` destroys the child frame during unwinding, the parent
coroutine is resumed and the exception is immediately re-thrown in it. -/
def forkAwaitSuspend (p c : Nat) (allocOk : Bool) (s : ForkState) : ForkState :=
  match s.deque.push p allocOk with
  | some d => { s with deque := d, running := c, childStarted := true }
  | none => { s with childAlive := false, running := p, excInParent := true }

/-- model of `lf::impl::region`: where a dispatch statement sits relative to
the enclosing fork-join scope. -/
inductive Region where
  /-- unknown location with respect to a fork-join scope. -/
  | unknown
  /-- outside a fork-join scope. -/
  | outside
  /-- inside a fork-join scope. -/
  | inside
  /-- first fork statement in a fork-join scope. -/
  | openingFork
deriving DecidableEq, Repr

/-- observable outcome of an `await_resume` of a dispatch awaitable. -/
inductive ResumeOutcome where
  /-- normal return; for a sync fork the payload is the boolean telling
  whether the child completed synchronously, for a call it is `true`. -/
  | ret (sync : Bool)
  /-- `unsafe_rethrow_if_exception()` threw: the real stashed exception
  object is rethrown. -/
  | rethrowReal
  /-- `LF_THROW(exception_before_join{})`: the substitute sentinel is thrown
  after consulting only the atomic exception flag. -/
  | throwSubstitute
deriving DecidableEq, Repr

/-- model of `sync_fork_awaitable<ChildThrows, R>::await_resume`
(awaitables.hpp lines 295-331): `stealsPre` was captured before the fork,
`stealsPost` is the steal counter on resumption, `hasExc` is the atomic
exception flag of the frame (the real exception object is stashed exactly
when the flag is set). -/
def syncForkAwaitResume (childThrows : Bool) (R : Region)
    (stealsPre stealsPost : Nat) (hasExc : Bool) : ResumeOutcome :=
  if stealsPost = stealsPre then
    -- the child completed synchronously.
    if childThrows then
      if R = .openingFork then
        if hasExc then .rethrowReal else .ret true
      else if stealsPost = 0 then
        if hasExc then .rethrowReal else .ret true
      else
        if hasExc then .throwSubstitute else .ret true
    else
      .ret true
  else
    .ret false

/-- model of `eager_call_awaitable<R>::await_resume` (awaitables.hpp lines
373-399): `steals` is the steal counter of the calling frame, `hasExc` its
atomic exception flag. -/
def eagerCallAwaitResume (R : Region) (steals : Nat) (hasExc : Bool) :
    ResumeOutcome :=
  if R = .outside then
    if hasExc then .rethrowReal else .ret true
  else if steals = 0 then
    if hasExc then .rethrowReal else .ret true
  else
    if hasExc then .throwSubstitute else .ret true

/-- model of `join_awaitable::await_resume`: after the counters were reset
the join rethrows whatever real exception is stashed in the frame. -/
def joinAwaitResume (hasExc : Bool) : ResumeOutcome :=
  if hasExc then .rethrowReal else .ret true

/-- shared state of the lazy_pool scheduler (`lazy_vars`): the global atomic
count `A` of active workers, and per NUMA domain `i` the atomic thief count
`T i` and the implied count `S i` of workers committed to a wait on the
notifier of the domain.  `ι` is the index type of the NUMA domains. -/
structure LazyState (ι : Type) where
  /-- the global `active` counter. -/
  A : Nat
  /-- the per-domain `thief` counters. -/
  T : ι → Nat
  /-- the per-domain sleeping counts implied by the notifier wait sets. -/
  S : ι → Nat

section Lazy

variable {ι : Type} [DecidableEq ι]

/-- first half of `lazy_vars::thief_work_sleep`: `thief.fetch_sub(1)` in the
domain of the caller and, when the caller was the last thief there,
`notifier.notify_one()`, which promotes one committed sleeper of the domain
into a thief (the woken worker immediately re-executes
`thief.fetch_add(1)`); when no sleeper is committed the notification has no
effect on the state. -/
def thiefDec (s : LazyState ι) (i : ι) : LazyState ι :=
  if s.T i = 1 ∧ 0 < s.S i then
    { s with T := Function.update s.T i 1,
             S := Function.update s.S i (s.S i - 1) }
  else
    { s with T := Function.update s.T i (s.T i - 1) }

/-- the per-domain notification loop of `lazy_vars::thief_work_sleep`: every
domain whose thief count reads zero receives `notify_one`, promoting one
committed sleeper (if any) into a thief. -/
def wakeAll (s : LazyState ι) : LazyState ι :=
  { s with
    T := fun j => if s.T j = 0 ∧ 0 < s.S j then 1 else s.T j,
    S := fun j => if s.T j = 0 ∧ 0 < s.S j then s.S j - 1 else s.S j }

/-- second half of `lazy_vars::thief_work_sleep`: `active.fetch_add(1)` and,
when the count rose from zero, the notification loop over all domains. -/
def activeInc (s : LazyState ι) : LazyState ι :=
  if s.A = 0 then { wakeAll s with A := 1 }
  else { s with A := s.A + 1 }

/-- model of `lazy_vars::thief_work_sleep` (the thief-with-work transition):
leave the thief pool of the own domain, then become active. -/
def thiefWorkSleep (s : LazyState ι) (i : ι) : LazyState ι :=
  activeInc (thiefDec s i)

/-- model of the sleep attempt in `lazy_work`: after `prepare_wait` and the
re-checks, `thief.fetch_sub(1)`; if that made the domain thief-free while
`active.load() > 0` the worker cancels the wait and resumes thieving (state
unchanged overall), otherwise it commits the wait and sleeps. -/
def trySleep (s : LazyState ι) (i : ι) : LazyState ι :=
  if s.T i = 1 ∧ 0 < s.A then s
  else
    { s with T := Function.update s.T i (s.T i - 1),
             S := Function.update s.S i (s.S i + 1) }

/-- step relation of the lazy scheduler on `(A, T, S)`, one constructor per
operation listed in the event loop `lazy_work`: becoming a thief at
`wake_up`, a committed sleeper waking into a thief, a thief finding work
(`thief_work_sleep`), an active worker finishing (`active.fetch_sub(1)`),
and a thief attempting to sleep. -/
inductive LazyStep : LazyState ι → LazyState ι → Prop where
  /-- a worker (fresh, or returning from work) registers as a thief. -/
  | becomeThief (s : LazyState ι) (i : ι) :
      LazyStep s { s with T := Function.update s.T i (s.T i + 1) }
  /-- a committed sleeper wakes (spuriously or notified) and registers as a
  thief. -/
  | wakeThief (s : LazyState ι) (i : ι) (h : 0 < s.S i) :
      LazyStep s { s with T := Function.update s.T i (s.T i + 1),
                          S := Function.update s.S i (s.S i - 1) }
  /-- a thief found a submission or stole a task: `thief_work_sleep`. -/
  | workActive (s : LazyState ι) (i : ι) (h : 0 < s.T i) :
      LazyStep s (thiefWorkSleep s i)
  /-- an active worker finishes its task: `active.fetch_sub(1)`. -/
  | activeDone (s : LazyState ι) (h : 0 < s.A) :
      LazyStep s { s with A := s.A - 1 }
  /-- a thief attempts to sleep (prepare, re-check, cancel or commit). -/
  | sleeping (s : LazyState ι) (i : ι) (h : 0 < s.T i) :
      LazyStep s (trySleep s i)

/-- initial state of the pool: no active worker, no thief, no sleeper. -/
def lazyInit (ι : Type) : LazyState ι :=
  { A := 0, T := fun _ => 0, S := fun _ => 0 }

/-- states reachable by the lazy scheduler from its initial state. -/
def LazyReachable (s : LazyState ι) : Prop :=
  Relation.ReflTransGen LazyStep (lazyInit ι) s

/-- the sleep invariant of the lazy scheduler: if any worker is active then
every domain has a thief or no sleeper. -/
def LazyInv (s : LazyState ι) : Prop :=
  0 < s.A → ∀ i, 1 ≤ s.T i ∨ s.S i = 0

/-- trace of one `thief_work_sleep` call: the resulting state, whether
`notify_one` was fired in the own domain (last-thief wake), and which
domains received `notify_one` from the activation loop. -/
structure TwsTrace (ι : Type) where
  /-- the state after the call. -/
  result : LazyState ι
  /-- whether the caller was the last thief of its domain and woke a peer. -/
  peerWoken : Bool
  /-- which domains were sent `notify_one` when the active count rose from
  zero. -/
  notified : ι → Bool

/-- model of `lazy_vars::thief_work_sleep` keeping the notifications it
sends visible: the activation loop runs only when `active.fetch_add(1)`
returned zero, and it notifies exactly the domains whose thief counter
loads as zero at that point (after the decrement of the own domain). -/
def thiefWorkSleepTrace (s : LazyState ι) (i : ι) : TwsTrace ι :=
  let s1 := thiefDec s i
  { result := activeInc s1
    peerWoken := decide (s.T i = 1)
    notified := fun j => decide (s.A = 0 ∧ s1.T j = 0) }

end Lazy

/-- the platform default new alignment `k_new_align` (16 on the supported
64-bit platforms). -/
def kNewAlign : Nat := 16

/-- the page size assumed by `round_up_to_page_size` (4096). -/
def kPageSize : Nat := 4096

/-- the size of the `stack::stacklet` header: five 8-byte pointers padded to
`alignas(k_new_align)`, hence 48 bytes. -/
def kStackletHeader : Nat := 48

/-- the malloc metadata over-estimate of `round_up_to_page_size`:
`6 * sizeof(void *)` = 48 bytes. -/
def kMallocMeta : Nat := 48

/-- model of `impl::round_up_to_page_size(size)`: choose the request so that
request plus the malloc metadata estimate is a multiple of the page size
(for the power-of-two page size the bit-mask `& ~(page_size - 1)` equals
truncating division then multiplication). -/
def roundUpToPageSize (size : Nat) : Nat :=
  (size + kMallocMeta + (kPageSize - 1)) / kPageSize * kPageSize - kMallocMeta

/-- model of `stack::stacklet` as the three byte-pointers delimiting its
stack region (addresses as naturals). -/
structure Stacklet where
  /-- the first byte of the usable stack region. -/
  lo : Nat
  /-- the bump pointer. -/
  sp : Nat
  /-- one past the end of the usable region. -/
  hi : Nat
deriving DecidableEq, Repr

/-- model of `stacklet::capacity()`. -/
def Stacklet.capacity (s : Stacklet) : Nat := s.hi - s.lo

/-- model of `stacklet::unused()`. -/
def Stacklet.unused (s : Stacklet) : Nat := s.hi - s.sp

/-- model of `stacklet::next_stacklet(size, prev)`: request
`round_up_to_page_size(size + sizeof(stacklet))` bytes from malloc (the
oracle `mallocBase` is the address malloc returns, `none` on failure, which
the source turns into `std::bad_alloc`); the fresh stacklet has
`lo = sp = base + sizeof(stacklet)` and `hi = base + request`. -/
def nextStacklet (size : Nat) (mallocBase : Option Nat) : Option Stacklet :=
  let request := roundUpToPageSize (size + kStackletHeader)
  match mallocBase with
  | none => none
  | some base =>
      some { lo := base + kStackletHeader, sp := base + kStackletHeader,
             hi := base + request }

/-- model of the per-worker `stack`: the top stacklet and the at most one
cached empty stacklet ahead of it. -/
structure Stack where
  /-- the currently allocating stacklet (`m_fib`). -/
  top : Stacklet
  /-- the cached `m_next` stacklet of the top, if any. -/
  nextCache : Option Stacklet
deriving DecidableEq, Repr

/-- the size rounded up to the next multiple of `k_new_align`
(`(size + k_new_align - 1) & ~(k_new_align - 1)` for the power-of-two
alignment). -/
def extSize (size : Nat) : Nat :=
  (size + (kNewAlign - 1)) / kNewAlign * kNewAlign

/-- result of `stack::allocate`. -/
inductive AllocResult where
  /-- the returned pointer and the stack afterwards. -/
  | ok (ptr : Nat) (st : Stack)
  /-- the stacklet allocation failed: `std::bad_alloc` is thrown. -/
  | oom
deriving DecidableEq, Repr

/-- the fresh-stacklet path of `stack::allocate`:
`m_fib = stacklet::next_stacklet(max(2 * m_fib->capacity(), ext_size), m_fib)`
(which frees any unusable cached stacklet via `set_next`), then bump. -/
def Stack.freshAlloc (st : Stack) (ext : Nat) (mallocBase : Option Nat) :
    AllocResult :=
  match nextStacklet (max (2 * st.top.capacity) ext) mallocBase with
  | none => .oom
  | some fresh =>
      .ok fresh.sp { top := { fresh with sp := fresh.sp + ext }, nextCache := none }

/-- model of `stack::allocate(size)` (part_000 lines 2129-2149): round the
size up to the default new alignment; if the top stacklet has enough unused
space bump-allocate there; otherwise reuse the cached next stacklet when its
capacity suffices, else allocate a fresh stacklet; finally
`return std::exchange(m_fib->m_sp, m_fib->m_sp + ext_size)`. -/
def Stack.allocate (st : Stack) (size : Nat) (mallocBase : Option Nat) :
    AllocResult :=
  let ext := extSize size
  if st.top.unused < ext then
    match st.nextCache with
    | some nxt =>
        if ext ≤ nxt.capacity then
          .ok nxt.sp { top := { nxt with sp := nxt.sp + ext }, nextCache := none }
        else
          st.freshAlloc ext mallocBase
    | none => st.freshAlloc ext mallocBase
  else
    .ok st.top.sp
      { top := { st.top with sp := st.top.sp + ext }, nextCache := st.nextCache }

/-- result of one `deque::steal()` call as seen by `numa_context::try_steal`
(`lf::err::none` carrying the task, `lf::err::lost`, `lf::err::empty`). -/
inductive StealResult where
  /-- a task was stolen. -/
  | ok (task : Nat)
  /-- lost a race with another thief or the owner; not retried. -/
  | lost
  /-- the victim deque was empty. -/
  | empty
deriving DecidableEq, Repr

/-- the task delivered by a steal call, if any. -/
def StealResult.task : StealResult → Option Nat
  | .ok t => some t
  | .lost => none
  | .empty => none

/-- the constant `k_min_steal_attempts` (1024). -/
def kMinStealAttempts : Nat := 1024

/-- the constant `k_steal_attempts_per_target` (32). -/
def kStealAttemptsPerTarget : Nat := 32

/-- model of the weight construction of `numa_context::init_worker_and_bind`
(part_000 lines 7558-7588): `cohorts` lists the sizes of the neighbor
cohorts at hop distance `i = 1, 2, ...` (hop 0 is the worker itself and is
skipped); each of the `n` members of the hop-`i` cohort is pushed with
weight `1 / (n * I * I)`. -/
def stealWeightsAux : Nat → List Nat → List ℚ
  | _, [] => []
  | i, n :: rest =>
      List.replicate n (1 / ((n : ℚ) * (i : ℚ) * (i : ℚ))) ++
        stealWeightsAux (i + 1) rest

/-- the weight vector handed to `std::discrete_distribution`. -/
def stealWeights (cohorts : List Nat) : List ℚ := stealWeightsAux 1 cohorts

/-- the weight law in the words of the spec: a neighbor at hop distance `i`
in a cohort of size `n_i` is chosen with weight proportional to
`1 / (i ^ 2 * n_i)` (stated as the unnormalised weight list, since
`discrete_distribution` normalises). -/
def specWeights (cohorts : List Nat) : List ℚ :=
  ((List.enumFrom 1 cohorts).map
    (fun p => List.replicate p.2 (1 / (((p.1 : ℚ)) ^ 2 * (p.2 : ℚ))))).flatten

/-- the planned sequence of steal targets of `numa_context::try_steal`: the
shuffled close (first-hop) set, each member once, followed by
`k_min_steal_attempts + k_steal_attempts_per_target * |neighbors|` random
draws from the weighted neighbor list (`pick k` is the index the
distribution draws on probe `k`). -/
def probePlan (close neigh : List Nat) (pick : Nat → Nat) : List Nat :=
  close ++
    (List.range (kMinStealAttempts + kStealAttemptsPerTarget * neigh.length)).map
      (fun k => neigh.getD (pick k) 0)

/-- the steal loop: issue one `steal()` per planned target in order (the
oracle `outcome` maps call index and target to the result); the first
successful steal is returned and both `lost` and `empty` just move on to
the next planned target. -/
def runProbes (outcome : Nat → Nat → StealResult) : Nat → List Nat → Option Nat
  | _, [] => none
  | k, t :: ts =>
      match outcome k t with
      | .ok task => some task
      | .lost => runProbes outcome (k + 1) ts
      | .empty => runProbes outcome (k + 1) ts

/-- model of `numa_context::try_steal` (part_000 lines 7618-7666): `nullptr`
immediately when the worker has no neighbors, otherwise run the probe
plan. -/
def tryStealModel (close neigh : List Nat) (pick : Nat → Nat)
    (outcome : Nat → Nat → StealResult) : Option Nat :=
  if neigh.isEmpty then none
  else runProbes outcome 0 (probePlan close neigh pick)

/-- model of `impl::future_state`. -/
inductive FutureStatus where
  /-- wait has not been called. -/
  | noWait
  /-- the result is ready (a wait completed). -/
  | ready
  /-- the result has been retrieved by `get`. -/
  | retrievd
deriving DecidableEq, Repr

/-- model of `lf::core::future<R>`: the shared-state pointer `m_heap`
(`none` after move-out or `detach`) with the `status` field of the shared
state. -/
structure FutureModel where
  /-- the shared state, if this future still holds one. -/
  heap : Option FutureStatus
deriving DecidableEq, Repr

/-- what the destructor of a future does. -/
inductive DtorAction where
  /-- `m_heap->sem.acquire()`: block on the semaphore of the root task until
  the scheduled task releases it at completion. -/
  | acquireSem
  /-- return immediately. -/
  | noBlock
deriving DecidableEq, Repr

/-- model of `future::~future` (part_000 lines 4920-4927): acquire the
semaphore exactly when the future is valid and its status is `no_wait`. -/
def futureDtor (f : FutureModel) : DtorAction :=
  match f.heap with
  | some .noWait => .acquireSem
  | _ => .noBlock

/-- model of `future::detach`: `std::exchange(m_heap, nullptr)`. -/
def FutureModel.detach (_ : FutureModel) : FutureModel := { heap := none }

/-- model of `future::wait`: throws `broken_future` (`none`) without a
shared state; otherwise a `no_wait` future acquires the semaphore once and
becomes `ready`, and any other status returns immediately. -/
def FutureModel.wait (f : FutureModel) : Option FutureModel :=
  match f.heap with
  | none => none
  | some st => some { heap := some (if st = .noWait then .ready else st) }

/-- the observable outcome of `future::get`. -/
inductive GetOutcome where
  /-- the stored value (or stored exception) is delivered. -/
  | value
  /-- `empty_future` thrown: `get` was called more than once. -/
  | threwEmptyFuture
  /-- `broken_future` thrown: no shared state. -/
  | threwBrokenFuture
deriving DecidableEq, Repr

/-- model of `future::get` (part_000 lines 4958-4975): `wait()` first,
`empty_future` if already retrieved, else mark retrieved and deliver. -/
def FutureModel.get (f : FutureModel) : GetOutcome × FutureModel :=
  match f.heap with
  | none => (.threwBrokenFuture, f)
  | some st =>
      if st = .retrievd then (.threwEmptyFuture, { heap := some .retrievd })
      else (.value, { heap := some .retrievd })

/-- a pure fork-join computation over `int` results: a task body either
returns a value or opens a fork-join scope that forks one child, calls a
second child, joins, and combines the two results (the shape of the fib
coroutine in benchmark/source/fib.cpp). -/
inductive TaskTree where
  /-- `co_return v`. -/
  | leaf (v : Int)
  /-- `co_await fork(a, f)(x); co_await call(b, f)(y); co_await join;
  co_return combine a b`. -/
  | scope (forked called : TaskTree) (combine : Int → Int → Int)

/-- the value a task computes: a fork symmetric-transfers into the child,
which runs to completion before the parent continues (the no-steal worker
schedule; a stolen continuation receives the very same child results at the
join, so the computed value is schedule-independent for pure bodies). -/
def runTask : TaskTree → Int
  | .leaf v => v
  | .scope forked called combine => combine (runTask forked) (runTask called)

/-- model of `lf::sync_wait(sch, fun, args...)` (part_000 lines 5046-5050)
for a pure root task: `schedule` submits the root task to the pool and
`future::get` blocks on the semaphore the root task releases at completion,
then returns the value the task stored in the shared state. -/
def sync_wait (t : TaskTree) : Int := runTask t

/-- the fib async function of benchmark/source/fib.cpp (lines 46-59): fork
the `n - 1` branch, call the `n - 2` branch, join, return the sum. -/
def fibTask (n : Int) : TaskTree :=
  if n < 2 then .leaf n
  else .scope (fibTask (n - 1)) (fibTask (n - 2)) (· + ·)
termination_by n.toNat
decreasing_by
  all_goals
    simp_wf
    omega

/-- the sequential reference `fib_ref_help(ret, n)` of
benchmark/source/fib.cpp (the out-parameter `ret` is modelled as the return
value). -/
def fib_ref_help (n : Int) : Int :=
  if n < 2 then n
  else fib_ref_help (n - 1) + fib_ref_help (n - 2)
termination_by n.toNat
decreasing_by
  all_goals
    simp_wf
    omega

/-- the sequential reference `fib_ref(n)`. -/
def fib_ref (n : Int) : Int := fib_ref_help n

end Libfork

namespace Libfork

/-- the claim C2 is stated about this theorem: at a pending join with steal
counter `s` nonzero, the worker performs `fetch_sub(k_u16_max - s)` with
release ordering and wins the race, reclaiming the stacklet and resetting
the counters to `steal = 0, join = k_u16_max`, exactly when the join counter
held `k_u16_max - s` immediately before the subtraction; otherwise it
abandons the frame to the scheduler. -/
theorem joinAwaitSuspend_spec (f : Frame)
    (hs : f.steals ≤ kU16Max) (hj : f.joins ≤ kU16Max) (hnz : f.steals ≠ 0) :
    (joinAwaitSuspend f = .resume { steals := 0, joins := kU16Max } ↔
      f.joins = kU16Max - f.steals) ∧
    (f.joins ≠ kU16Max - f.steals →
      joinAwaitSuspend f =
        .scheduler { f with joins := (f.joins + u16Mod - (kU16Max - f.steals) % u16Mod) % u16Mod }) := by
  unfold joinAwaitSuspend Frame.fetchSubJoins Frame.reset
  constructor
  · constructor
    · intro h
      by_cases hc : f.steals = kU16Max - f.joins
      · unfold kU16Max at *
        unfold u16Mod at *
        omega
      · simp [hc] at h
    · intro h
      have hc : f.steals = kU16Max - f.joins := by
        unfold kU16Max at *
        omega
      simp [hc]
  · intro h
    have hc : ¬ f.steals = kU16Max - f.joins := by
      unfold kU16Max at *
      omega
    simp [hc]

/-- the theorem joinAwaitSuspend_spec applied at a concrete frame: steal
counter 2, join counter 65533 (both stolen children already joined), so the
worker wins and the frame is reset. -/
theorem joinAwaitSuspend_spec_witness :
    joinAwaitSuspend { steals := 2, joins := 65533 } =
      .resume { steals := 0, joins := kU16Max } :=
  ((joinAwaitSuspend_spec { steals := 2, joins := 65533 }
    (by decide) (by decide) (by decide)).1).2 (by decide)

/-- the claim C3, as stated, fails at this input: the pop misses (the
continuation of the parent was stolen), the join counter read 1 so this is
the last outstanding child of a parent that issued a join, yet because the
parent frame lives on the same stacklet the worker already owns (address 5)
the code resumes the parent WITHOUT installing a stack constructed from the
stacklet address of the parent. -/
theorem finalAwaitSuspend_counterexample :
    (finalAwaitSuspend false { steals := 1, joins := 1 } 5 5).1 = .parent ∧
    (finalAwaitSuspend false { steals := 1, joins := 1 } 5 5).2.1 ≠
      StackEffect.installFrom 5 := by
  decide

/-- the claim C3 amended: on a pop hit the worker transfers straight to the
parent with no counter or stack change; otherwise the join counter is
decremented by one and the parent is resumed exactly when the value before
the decrement was 1, in which case the worker installs a stack from the
stacklet address of the parent when that stacklet differs from the one of
the child (when they coincide the worker already owns it and the stack is
untouched); when it loses the race it releases its stack exactly when the
child lived on the stacklet of the parent (otherwise its stack is empty and
is retained). -/
theorem finalAwaitSuspend_spec (popHit : Bool) (pf : Frame) (p c : Nat)
    (h1 : 1 ≤ pf.joins) (h2 : pf.joins ≤ kU16Max) :
    (popHit = true → finalAwaitSuspend popHit pf p c = (.parent, .unchanged, pf)) ∧
    (popHit = false →
      ((finalAwaitSuspend popHit pf p c).1 = .parent ↔ pf.joins = 1) ∧
      ((finalAwaitSuspend popHit pf p c).2.2.joins =
        if pf.joins = 1 then kU16Max else pf.joins - 1) ∧
      (pf.joins = 1 → p ≠ c →
        (finalAwaitSuspend popHit pf p c).2.1 = .installFrom p) ∧
      (pf.joins = 1 → p = c →
        (finalAwaitSuspend popHit pf p c).2.1 = .unchanged) ∧
      (pf.joins ≠ 1 →
        (finalAwaitSuspend popHit pf p c).2.1 =
          if p = c then .released else .unchanged)) := by
  constructor
  · intro h
    subst h
    rfl
  · intro h
    subst h
    unfold finalAwaitSuspend Frame.fetchSubJoins Frame.reset
    by_cases hj : pf.joins = 1
    · by_cases hpc : p = c <;>
        simp [hj, hpc, kU16Max]
    · have hmod : (pf.joins + u16Mod - 1 % u16Mod) % u16Mod = pf.joins - 1 := by
        unfold u16Mod
        unfold kU16Max at h2
        omega
      by_cases hpc : p = c <;>
        simp [hj, hpc, hmod]

/-- the theorem finalAwaitSuspend_spec applied at a concrete input: parent
stolen, two children still owed, child on a different stacklet, so the
worker yields to the scheduler keeping its (empty) stack. -/
theorem finalAwaitSuspend_spec_witness :
    (finalAwaitSuspend false { steals := 3, joins := 2 } 7 9).1 = .parent ↔
      ({ steals := 3, joins := 2 } : Frame).joins = 1 :=
  ((finalAwaitSuspend_spec false { steals := 3, joins := 2 } 7 9
    (by decide) (by decide)).2 rfl).1

/-- the claim C4 is stated about this theorem: when the deque push performed
while the parent forks a child throws (the deque is full and the resize
allocation fails), the machinery destroys the frame of the child, resumes
the parent and re-raises the exception there; the child never started and
the deque and every other component of the state of the parent are exactly
as before the fork. -/
theorem forkAwaitSuspend_push_throws (p c : Nat) (s : ForkState)
    (halive : s.childAlive = true) (hstart : s.childStarted = false)
    (hfull : s.deque.cap < s.deque.items.length + 1) :
    forkAwaitSuspend p c false s =
      { s with childAlive := false, running := p, excInParent := true } ∧
    (forkAwaitSuspend p c false s).deque = s.deque ∧
    (forkAwaitSuspend p c false s).childStarted = false := by
  unfold forkAwaitSuspend Deque.push
  simp [if_pos hfull, hstart]

/-- the theorem forkAwaitSuspend_push_throws applied at a concrete state: a
full deque of capacity 1 whose resize allocation fails. -/
theorem forkAwaitSuspend_push_throws_witness :
    forkAwaitSuspend 3 4 false
      { deque := { items := [9], cap := 1 }, childAlive := true,
        childStarted := false, running := 3, excInParent := false } =
      { deque := { items := [9], cap := 1 }, childAlive := false,
        childStarted := false, running := 3, excInParent := true } :=
  (forkAwaitSuspend_push_throws 3 4
    { deque := { items := [9], cap := 1 }, childAlive := true,
      childStarted := false, running := 3, excInParent := false }
    rfl rfl (by decide)).1

/-- the claim C5, as stated, fails at this input: a sync fork whose child
was stolen during the await (steal counter went from 0 to 1) with the atomic
exception flag set. The claim demands the substitute
`exception_before_join` sentinel; the code merely reports non-synchronous
completion (`false`) and throws nothing at all. -/
theorem dispatchResume_counterexample :
    syncForkAwaitResume true .inside 0 1 true = .ret false ∧
    syncForkAwaitResume true .inside 0 1 true ≠ .throwSubstitute := by
  decide

/-- the claim C5 amended: for a sync fork the rethrow discipline only runs
when the child completed synchronously (steal counter unchanged across the
await); in that case exclusive ownership (steal counter zero) rethrows the
real stashed exception, and prior steals lead to the substitute sentinel
exactly when the atomic flag is set; when the child was stolen the awaitable
returns `false` and touches no exception.  An eager-throw call rethrows the
real exception under exclusive ownership and otherwise throws the substitute
exactly when the flag is set, and a subsequent join rethrows the real
exception. -/
theorem dispatchResume_spec (R1 R2 : Region) (pre post steals : Nat)
    (hasExc : Bool) (hmono : pre ≤ post)
    (hR1 : R1 ≠ .outside) (hassert1 : R1 = .openingFork → post = 0)
    (hR2 : R2 ≠ .openingFork) (hassert2 : R2 = .outside → steals = 0) :
    (post = 0 →
      syncForkAwaitResume true R1 pre post hasExc =
        if hasExc then .rethrowReal else .ret true) ∧
    (post = pre → post ≠ 0 →
      syncForkAwaitResume true R1 pre post hasExc =
        if hasExc then .throwSubstitute else .ret true) ∧
    (post ≠ pre →
      syncForkAwaitResume true R1 pre post hasExc = .ret false) ∧
    (steals = 0 →
      eagerCallAwaitResume R2 steals hasExc =
        if hasExc then .rethrowReal else .ret true) ∧
    (steals ≠ 0 →
      eagerCallAwaitResume R2 steals hasExc =
        if hasExc then .throwSubstitute else .ret true) ∧
    joinAwaitResume true = .rethrowReal := by
  refine ⟨?_, ?_, ?_, ?_, ?_, rfl⟩
  · intro hp
    have hpre : pre = 0 := by omega
    subst hp
    unfold syncForkAwaitResume
    rcases R1 with _ | _ | _ | _ <;> simp [hpre]
  · intro heq hnz
    have hro : R1 ≠ .openingFork := fun h => hnz (hassert1 h)
    subst heq
    unfold syncForkAwaitResume
    simp [hro, hnz]
  · intro hne
    unfold syncForkAwaitResume
    simp [hne]
  · intro hz
    unfold eagerCallAwaitResume
    rcases R2 with _ | _ | _ | _ <;> simp [hz]
  · intro hnz
    have hro : R2 ≠ .outside := fun h => hnz (hassert2 h)
    unfold eagerCallAwaitResume
    simp [hro, hnz]

/-- the theorem dispatchResume_spec applied at concrete inputs: a sync fork
inside a scope that completed synchronously after one earlier steal, with
the exception flag set, throws the substitute sentinel. -/
theorem dispatchResume_spec_witness :
    syncForkAwaitResume true .inside 1 1 true = .throwSubstitute :=
  (dispatchResume_spec .inside .inside 1 1 1 true (by decide) (by decide)
    (by decide) (by decide) (by decide)).2.1 rfl (by decide)

section LazyThm

variable {ι : Type} [DecidableEq ι]

/-- helper: leaving the thief pool (with the last-thief wake) preserves the
sleep invariant. -/
theorem thiefDec_inv {s : LazyState ι} {i : ι} (hT : 0 < s.T i)
    (hinv : LazyInv s) : LazyInv (thiefDec s i) := by
  intro hA j
  have hA0 : 0 < s.A := by
    unfold thiefDec at hA
    by_cases hc : s.T i = 1 ∧ 0 < s.S i <;> simpa [hc] using hA
  have hj := hinv hA0 j
  unfold thiefDec
  by_cases hc : s.T i = 1 ∧ 0 < s.S i
  · rcases eq_or_ne j i with hji | hji
    · subst hji
      simp only [if_pos hc, Function.update_same]
      omega
    · simp only [if_pos hc, Function.update_noteq hji]
      exact hj
  · rcases eq_or_ne j i with hji | hji
    · subst hji
      simp only [if_neg hc, Function.update_same]
      omega
    · simp only [if_neg hc, Function.update_noteq hji]
      exact hj

/-- helper: becoming active (with the rise-from-zero notification loop)
establishes the sleep invariant. -/
theorem activeInc_inv {s : LazyState ι} (hinv : LazyInv s) :
    LazyInv (activeInc s) := by
  intro hA j
  unfold activeInc wakeAll at *
  by_cases hz : s.A = 0
  · simp only [if_pos hz] at *
    by_cases hc : s.T j = 0 ∧ 0 < s.S j
    · simp only [if_pos hc]
      omega
    · simp only [if_neg hc]
      omega
  · simp only [if_neg hz] at *
    exact hinv (Nat.pos_of_ne_zero hz) j

/-- helper: every operation of the lazy event loop preserves the sleep
invariant. -/
theorem lazyStep_preserves_inv {s s' : LazyState ι} (hstep : LazyStep s s')
    (hinv : LazyInv s) : LazyInv s' := by
  cases hstep with
  | becomeThief i =>
      intro hA j
      have hj := hinv hA j
      rcases eq_or_ne j i with hji | hji
      · subst hji
        simp only [Function.update_same]
        omega
      · simpa only [Function.update_noteq hji] using hj
  | wakeThief i h =>
      intro hA j
      have hj := hinv hA j
      rcases eq_or_ne j i with hji | hji
      · subst hji
        simp only [Function.update_same]
        omega
      · simpa only [Function.update_noteq hji] using hj
  | workActive i h =>
      exact activeInc_inv (thiefDec_inv h hinv)
  | activeDone h =>
      intro hA j
      exact hinv (by omega) j
  | sleeping i h =>
      intro hA j
      unfold trySleep at *
      by_cases hc : s.T i = 1 ∧ 0 < s.A
      · simp only [if_pos hc] at *
        exact hinv hA j
      · simp only [if_neg hc] at *
        have hj := hinv hA j
        rcases eq_or_ne j i with hji | hji
        · subst hji
          simp only [Function.update_same]
          omega
        · simpa only [Function.update_noteq hji] using hj

/-- the claim C6 is stated about this theorem: in the step relation of the
lazy scheduler every state reachable from the initial (all-zero) state
satisfies the invariant that whenever the active count is positive, every
NUMA domain has at least one thief or no sleeper. -/
theorem lazy_invariant (s : LazyState ι) (h : LazyReachable s) : LazyInv s := by
  unfold LazyReachable at h
  induction h with
  | refl =>
      intro hA
      simp [lazyInit] at hA
  | tail hsteps hstep ih =>
      exact lazyStep_preserves_inv hstep ih

/-- the theorem lazy_invariant applied to a concrete reachable state of a
one-domain pool: a worker becomes a thief and then finds work. -/
theorem lazy_invariant_witness :
    LazyInv (thiefWorkSleep
      ({ lazyInit (Fin 1) with
         T := Function.update (lazyInit (Fin 1)).T 0 ((lazyInit (Fin 1)).T 0 + 1) }) 0) :=
  lazy_invariant _
    (Relation.ReflTransGen.tail
      (Relation.ReflTransGen.tail Relation.ReflTransGen.refl
        (LazyStep.becomeThief (lazyInit (Fin 1)) 0))
      (LazyStep.workActive _ 0 (by simp [lazyInit])))

/-- the claim C7, as stated, fails at this input: a two-domain pool with one
thief in each domain and no active worker; the thief of domain 0 finds
work. The active count rises from 0 to 1, yet domain 1 is not notified,
because its thief counter reads 1 (nonzero) in the notification loop. -/
theorem thiefWorkSleep_notify_counterexample :
    (thiefWorkSleepTrace (ι := Fin 2)
      { A := 0, T := fun _ => 1, S := fun _ => 0 } 0).result.A = 1 ∧
    (thiefWorkSleepTrace (ι := Fin 2)
      { A := 0, T := fun _ => 1, S := fun _ => 0 } 0).notified 1 = false := by
  constructor
  · simp [thiefWorkSleepTrace, thiefDec, activeInc, wakeAll]
  · simp [thiefWorkSleepTrace, thiefDec, Function.update_apply]

/-- the claim C7 amended: the thief-with-work transition decrements the
thief count of its domain (firing a peer notification exactly when the
caller was the last thief), then increments the global active count; when
that increment raises the count from 0 it sends one notification to exactly
the domains whose thief counter reads zero after the decrement, and when
the count was already positive it notifies no domain. -/
theorem thiefWorkSleep_notify_spec (s : LazyState ι) (i : ι) (h : 0 < s.T i) :
    ((thiefWorkSleepTrace s i).result = thiefWorkSleep s i) ∧
    ((thiefWorkSleepTrace s i).result.A = s.A + 1) ∧
    ((thiefWorkSleepTrace s i).peerWoken = true ↔ s.T i = 1) ∧
    (s.A = 0 →
      ∀ j, ((thiefWorkSleepTrace s i).notified j = true ↔ (thiefDec s i).T j = 0)) ∧
    (s.A ≠ 0 → ∀ j, (thiefWorkSleepTrace s i).notified j = false) := by
  refine ⟨rfl, ?_, ?_, ?_, ?_⟩
  · have hAkeep : (thiefDec s i).A = s.A := by
      unfold thiefDec
      by_cases hc : s.T i = 1 ∧ 0 < s.S i <;> simp [hc]
    simp only [thiefWorkSleepTrace, activeInc, hAkeep]
    by_cases hA : s.A = 0 <;> simp [hA]
  · simp [thiefWorkSleepTrace]
  · intro hA j
    simp [thiefWorkSleepTrace, hA]
  · intro hA j
    simp [thiefWorkSleepTrace, hA]

/-- the theorem thiefWorkSleep_notify_spec applied at the concrete state of
the counterexample: the active count rises to one. -/
theorem thiefWorkSleep_notify_spec_witness :
    (thiefWorkSleepTrace (ι := Fin 2)
      { A := 0, T := fun _ => 1, S := fun _ => 0 } 0).result.A = 0 + 1 :=
  (thiefWorkSleep_notify_spec { A := 0, T := fun _ => 1, S := fun _ => 0 } 0
    (by decide)).2.1

end LazyThm

/-- helper: the rounded size is aligned. -/
theorem extSize_align (size : Nat) : extSize size % kNewAlign = 0 := by
  unfold extSize kNewAlign
  omega

/-- helper: the page rounding never shrinks the request. -/
theorem roundUpToPageSize_ge (size : Nat) : size ≤ roundUpToPageSize size := by
  unfold roundUpToPageSize kMallocMeta kPageSize
  omega

/-- helper: the request plus the malloc metadata estimate is a page
multiple. -/
theorem roundUpToPageSize_mod (size : Nat) :
    (roundUpToPageSize size + kMallocMeta) % kPageSize = 0 := by
  unfold roundUpToPageSize kMallocMeta kPageSize
  omega

/-- the claim C8, as stated, fails at this input: allocating 100 bytes on an
exhausted stack with no cached stacklet mallocs a fresh chunk of 4048 bytes
(holding the 48-byte header and 4000 bytes of stack), which is not the
claimed page-size multiple: the source sizes the request so that request
plus a 48-byte malloc metadata estimate is a multiple of the page size. -/
theorem allocate_counterexample :
    Stack.allocate { top := { lo := 0, sp := 0, hi := 0 }, nextCache := none }
        100 (some 0) =
      .ok 48 { top := { lo := 48, sp := 160, hi := 4048 }, nextCache := none } ∧
    ¬ (4048 - 0) % kPageSize = 0 := by
  constructor
  · rfl
  · decide

/-- the claim C8 amended: allocate(size) rounds the size up to the default
new alignment; when the top stacklet has that much unused space it
bump-allocates there; otherwise it reuses the cached next stacklet when its
capacity suffices; otherwise it mallocs a fresh stacklet with stack
capacity at least max(2 * capacity(top), rounded size), the request being
sized so that it plus a 48-byte malloc metadata estimate is a multiple of
the page size; a returned pointer is aligned to the default new alignment
when malloc results and the bump pointers are; malloc failure surfaces as
bad_alloc. -/
theorem allocate_spec (st : Stack) (size : Nat) (mallocBase : Option Nat)
    (halign1 : st.top.sp % kNewAlign = 0)
    (halign2 : ∀ nxt, st.nextCache = some nxt → nxt.sp % kNewAlign = 0)
    (halign3 : ∀ b, mallocBase = some b → b % kNewAlign = 0) :
    (extSize size ≤ st.top.unused →
      st.allocate size mallocBase =
        .ok st.top.sp
          { top := { st.top with sp := st.top.sp + extSize size },
            nextCache := st.nextCache }) ∧
    (∀ nxt, st.top.unused < extSize size → st.nextCache = some nxt →
      extSize size ≤ nxt.capacity →
      st.allocate size mallocBase =
        .ok nxt.sp
          { top := { nxt with sp := nxt.sp + extSize size }, nextCache := none }) ∧
    (∀ b, st.top.unused < extSize size →
      (∀ nxt, st.nextCache = some nxt → nxt.capacity < extSize size) →
      mallocBase = some b →
      ∃ t : Stacklet,
        st.allocate size mallocBase =
          .ok (b + kStackletHeader) { top := t, nextCache := none } ∧
        max (2 * st.top.capacity) (extSize size) ≤ t.capacity ∧
        (t.capacity + kStackletHeader + kMallocMeta) % kPageSize = 0) ∧
    (st.top.unused < extSize size →
      (∀ nxt, st.nextCache = some nxt → nxt.capacity < extSize size) →
      mallocBase = none → st.allocate size mallocBase = .oom) ∧
    (∀ ptr st2, st.allocate size mallocBase = .ok ptr st2 →
      ptr % kNewAlign = 0) := by
  have hreq := roundUpToPageSize_ge (max (2 * st.top.capacity) (extSize size) + kStackletHeader)
  have hmod := roundUpToPageSize_mod (max (2 * st.top.capacity) (extSize size) + kStackletHeader)
  refine ⟨?_, ?_, ?_, ?_, ?_⟩
  · intro h
    unfold Stack.allocate
    simp [Nat.not_lt.mpr h]
  · intro nxt h hc hcap
    unfold Stack.allocate
    simp [h, hc, hcap]
  · intro b h hmiss hb
    subst hb
    unfold Stack.allocate Stack.freshAlloc nextStacklet
    refine ⟨{ lo := b + kStackletHeader, sp := b + kStackletHeader + extSize size,
              hi := b + roundUpToPageSize
                (max (2 * st.top.capacity) (extSize size) + kStackletHeader) },
            ?_, ?_, ?_⟩
    · rcases hca : st.nextCache with _ | nxt
      · simp [h]
      · have hlt := hmiss nxt hca
        simp [h, Nat.not_le.mpr hlt]
    · show max (2 * st.top.capacity) (extSize size) ≤
        b + roundUpToPageSize (max (2 * st.top.capacity) (extSize size) + kStackletHeader) -
          (b + kStackletHeader)
      omega
    · show (b + roundUpToPageSize (max (2 * st.top.capacity) (extSize size) + kStackletHeader) -
          (b + kStackletHeader) + kStackletHeader + kMallocMeta) % kPageSize = 0
      unfold kStackletHeader kMallocMeta kPageSize at *
      omega
  · intro h hmiss hb
    subst hb
    unfold Stack.allocate Stack.freshAlloc nextStacklet
    rcases hca : st.nextCache with _ | nxt
    · simp [h]
    · have hlt := hmiss nxt hca
      simp [h, Nat.not_le.mpr hlt]
  · intro ptr st2 hok
    unfold Stack.allocate Stack.freshAlloc nextStacklet at hok
    by_cases h : st.top.unused < extSize size
    · rcases hca : st.nextCache with _ | nxt
      · rw [hca] at hok
        rcases hmb : mallocBase with _ | b
        · rw [hmb] at hok
          simp [h] at hok
        · rw [hmb] at hok
          simp [h] at hok
          obtain ⟨hp, -⟩ := hok
          have hb := halign3 b hmb
          rw [← hp]
          unfold kNewAlign at *
          unfold kStackletHeader
          omega
      · rw [hca] at hok
        by_cases hcap : extSize size ≤ nxt.capacity
        · simp [h, hcap] at hok
          obtain ⟨hp, -⟩ := hok
          have hx := halign2 nxt hca
          rw [← hp]
          exact hx
        · rcases hmb : mallocBase with _ | b
          · rw [hmb] at hok
            simp [h, hcap] at hok
          · rw [hmb] at hok
            simp [h, hcap] at hok
            obtain ⟨hp, -⟩ := hok
            have hb := halign3 b hmb
            rw [← hp]
            unfold kNewAlign at *
            unfold kStackletHeader
            omega
    · simp [h] at hok
      obtain ⟨hp, -⟩ := hok
      rw [← hp]
      exact halign1

/-- the theorem allocate_spec applied at a concrete stack: a top stacklet
with 4080 unused bytes bump-allocates 100 (rounded to 112) bytes. -/
theorem allocate_spec_witness :
    Stack.allocate { top := { lo := 0, sp := 16, hi := 4096 }, nextCache := none }
        100 none =
      .ok 16 { top := { lo := 0, sp := 16 + extSize 100, hi := 4096 },
               nextCache := none } :=
  (allocate_spec { top := { lo := 0, sp := 16, hi := 4096 }, nextCache := none }
    100 none (by decide) (fun _ h => nomatch h) (fun _ h => nomatch h)).1
    (by decide)

/-- helper: two outcome oracles delivering the same tasks drive the probe
loop identically (in particular a `lost` behaves exactly like an
`empty`). -/
theorem runProbes_congr (o1 o2 : Nat → Nat → StealResult)
    (h : ∀ k t, (o1 k t).task = (o2 k t).task) :
    ∀ ts k, runProbes o1 k ts = runProbes o2 k ts := by
  intro ts
  induction ts with
  | nil =>
      intro k
      rfl
  | cons t ts ih =>
      intro k
      have hk := h k t
      cases h1 : o1 k t <;> cases h2 : o2 k t <;>
        simp only [h1, h2, StealResult.task] at hk <;>
        simp only [runProbes, h1, h2] <;>
        first
          | exact (Option.some_ne_none _ hk).elim
          | exact (Option.some_ne_none _ hk.symm).elim
          | exact ih (k + 1)
          | rw [hk]

/-- helper: the probe loop fails exactly when every single planned probe
fails. -/
theorem runProbes_none_iff (o : Nat → Nat → StealResult) :
    ∀ ts k, (runProbes o k ts = none ↔
      ∀ j < ts.length, (o (k + j) (ts.getD j 0)).task = none) := by
  intro ts
  induction ts with
  | nil =>
      intro k
      simp [runProbes]
  | cons t ts ih =>
      intro k
      have hsplit : (∀ j < (t :: ts).length, (o (k + j) ((t :: ts).getD j 0)).task = none) ↔
          ((o k t).task = none ∧
            ∀ j < ts.length, (o (k + 1 + j) (ts.getD j 0)).task = none) := by
        constructor
        · intro hall
          refine ⟨by simpa using hall 0 (by simp), ?_⟩
          intro j hj
          have := hall (j + 1) (by simpa using Nat.succ_lt_succ hj)
          simpa [Nat.add_assoc, Nat.add_comm 1 j] using this
        · intro ⟨h0, hrest⟩ j hj
          cases j with
          | zero => simpa using h0
          | succ j' =>
              have := hrest j' (by simpa using Nat.lt_of_succ_lt_succ hj)
              simpa [Nat.add_assoc, Nat.add_comm 1 j'] using this
      rw [hsplit]
      cases h1 : o k t <;>
        simp [runProbes, h1, StealResult.task, ih (k + 1)]

/-- helper: the weight list the worker builds equals, cohort by cohort, the
weight law of the spec. -/
theorem stealWeightsAux_eq_spec (cohorts : List Nat) :
    ∀ i, stealWeightsAux i cohorts =
      ((List.enumFrom i cohorts).map
        (fun p => List.replicate p.2 (1 / (((p.1 : ℚ)) ^ 2 * (p.2 : ℚ))))).flatten := by
  induction cohorts with
  | nil =>
      intro i
      rfl
  | cons n rest ih =>
      intro i
      have hw : (1 : ℚ) / ((n : ℚ) * (i : ℚ) * (i : ℚ)) =
          1 / (((i : ℚ)) ^ 2 * (n : ℚ)) := by
        ring_nf
      simp only [stealWeightsAux, List.enumFrom, List.map, List.flatten_cons,
        ih (i + 1), hw]

/-- the claim C9 is stated about this theorem: with a non-empty neighbor
set, a steal attempt tries the shuffled close set once each, then performs
exactly `1024 + 32 * |neighbors|` weighted probes (the plan length); the
loop is insensitive to replacing `lost` results by `empty` ones (no retry,
both just advance); it returns `nullptr` exactly when every planned probe
fails; and the weight vector gives the neighbor at hop distance `i` in a
cohort of size `n` the weight `1 / (i ^ 2 * n)`. -/
theorem trySteal_spec (close neigh : List Nat) (pick : Nat → Nat)
    (o1 o2 : Nat → Nat → StealResult) (hne : neigh ≠ [])
    (hsame : ∀ k t, (o1 k t).task = (o2 k t).task) :
    ((probePlan close neigh pick).length =
      close.length + (kMinStealAttempts + kStealAttemptsPerTarget * neigh.length)) ∧
    (tryStealModel close neigh pick o1 = tryStealModel close neigh pick o2) ∧
    (tryStealModel close neigh pick o1 = none ↔
      ∀ j < (probePlan close neigh pick).length,
        (o1 j ((probePlan close neigh pick).getD j 0)).task = none) ∧
    (∀ cohorts, stealWeights cohorts =
      ((List.enumFrom 1 cohorts).map
        (fun p => List.replicate p.2 (1 / (((p.1 : ℚ)) ^ 2 * (p.2 : ℚ))))).flatten) := by
  have hne2 : neigh.isEmpty = false := by
    cases neigh with
    | nil => exact absurd rfl hne
    | cons a l => rfl
  refine ⟨?_, ?_, ?_, ?_⟩
  · simp [probePlan]
  · unfold tryStealModel
    rw [hne2]
    simp only [Bool.false_eq_true, if_false]
    exact runProbes_congr o1 o2 hsame _ 0
  · unfold tryStealModel
    rw [hne2]
    simp only [Bool.false_eq_true, if_false]
    simpa using runProbes_none_iff o1 (probePlan close neigh pick) 0
  · intro cohorts
    exact stealWeightsAux_eq_spec cohorts 1

/-- the theorem trySteal_spec applied at concrete inputs: one close
neighbor, one far neighbor, all probes empty, so the plan has 1 + 1056
entries and the attempt fails. -/
theorem trySteal_spec_witness :
    tryStealModel [5] [7] (fun _ => 0) (fun _ _ => .empty) = none :=
  ((trySteal_spec [5] [7] (fun _ => 0) (fun _ _ => .empty) (fun _ _ => .empty)
    (by decide) (fun _ _ => rfl)).2.2.1).2 (fun _ _ => rfl)

/-- the claim C10 is stated about this theorem: the destructor of a future
acquires the semaphore of the root task (blocking until the scheduled task
releases it at completion) exactly when the future still holds a shared
state on which neither a wait nor a get has completed; after `detach`
(which empties the shared-state pointer), after a completed `wait`, or
after any completed `get`, the destructor returns without blocking. -/
theorem futureDtor_spec (f g : FutureModel) (hw : f.wait = some g) :
    (futureDtor f = .acquireSem ↔ f.heap = some .noWait) ∧
    futureDtor f.detach = .noBlock ∧
    futureDtor g = .noBlock ∧
    futureDtor (f.get).2 = .noBlock := by
  rcases f with ⟨_ | st⟩
  · exact absurd hw (by simp [FutureModel.wait])
  · simp only [FutureModel.wait, Option.some.injEq] at hw
    subst hw
    cases st <;> exact ⟨by decide, by decide, by decide, by decide⟩

/-- the theorem futureDtor_spec applied at a concrete future whose wait has
not yet completed: after a completed wait the destructor does not block. -/
theorem futureDtor_spec_witness :
    futureDtor { heap := some .ready } = .noBlock :=
  (futureDtor_spec { heap := some .noWait } { heap := some .ready } rfl).2.2.1

/-- the claim C1 is stated about this theorem: for every argument `n`, the
value `sync_wait` delivers for the fib task (which forks the `n - 1` branch,
calls the `n - 2` branch and joins) equals the value of the plain sequential
reference `fib_ref`. -/
theorem sync_wait_fib (n : Int) : sync_wait (fibTask n) = fib_ref n := by
  unfold fib_ref
  unfold sync_wait
  induction n using fibTask.induct with
  | case1 n h =>
      rw [fibTask, fib_ref_help]
      simp [h, runTask]
  | case2 n h ih1 ih2 =>
      rw [fibTask, fib_ref_help]
      simp only [if_neg h, runTask]
      rw [ih1, ih2]

end Libfork
